import Mathlib

/-!
Shallow embedding of the lithe-db document store (src/src/Collection.js,
src/src/LitheDB.js, src/src/Storage.js) and proofs about it.

Modelling conventions:
* JS values are modelled by the mutual inductive `Val` / `VList` / `VFields`
  (JSON-style data: null, booleans, numbers, strings, arrays, objects).
  JS objects keep property insertion order, which `VFields` preserves.
  Numbers are modelled as integers (the repository only manipulates them as
  opaque scalars and as the serial counter).
* `undefined` (a missing property) is modelled as `Option.none` at access sites.
* JS strict equality `===` between a stored value and a caller-supplied value
  is modelled by `jsEqOO`: value equality on primitives, `false` on
  objects/arrays, because two separately constructed objects are distinct
  references.  `JSON.stringify` is modelled by `Val.stringify`, which
  serializes object keys in insertion order exactly as V8 does.
* Asynchronous functions are modelled as pure functions; hook callbacks are
  registration tokens whose side effects are outside the model.
-/

namespace LitheDB

mutual
inductive Val : Type where
  | null : Val
  | bool : Bool → Val
  | num : Int → Val
  | str : String → Val
  | arr : VList → Val
  | obj : VFields → Val
  deriving DecidableEq
inductive VList : Type where
  | nil : VList
  | cons : Val → VList → VList
  deriving DecidableEq
inductive VFields : Type where
  | nil : VFields
  | cons : String → Val → VFields → VFields
  deriving DecidableEq
end

/-- Decimal digits of a natural number, most significant first (fuelled so that
it is structurally recursive; the fuel `n + 1` always suffices).  This is the
embedding of the JS conversion `String(n)` for a non-negative integer. -/
def natDigitsAux : Nat → Nat → List Char
  | 0, _ => []
  | fuel + 1, n =>
    if n < 10 then [Nat.digitChar n]
    else natDigitsAux fuel (n / 10) ++ [Nat.digitChar (n % 10)]

def natDigits (n : Nat) : List Char := natDigitsAux (n + 1) n

def natToString (n : Nat) : String := String.mk (natDigits n)

/-- JS `String(n)` for an integer. -/
def intToString (n : Int) : String :=
  if n < 0 then "-" ++ natToString n.natAbs else natToString n.natAbs

/-- Hex digit, reusing `Nat.digitChar` (lowercase a-f, as in V8's output). -/
def escChar (c : Char) : List Char :=
  if c = '"' then ['\\', '"']
  else if c = '\\' then ['\\', '\\']
  else if c = '\n' then ['\\', 'n']
  else if c = '\r' then ['\\', 'r']
  else if c = '\t' then ['\\', 't']
  else if c.toNat = 8 then ['\\', 'b']
  else if c.toNat = 12 then ['\\', 'f']
  else if c.toNat < 32 then
    ['\\', 'u', '0', '0', Nat.digitChar (c.toNat / 16), Nat.digitChar (c.toNat % 16)]
  else [c]

/-- JSON string quoting as performed by `JSON.stringify` on a string. -/
def quoteJson (s : String) : String :=
  "\"" ++ String.mk (s.data.map escChar).flatten ++ "\""

mutual
/-- Embedding of `JSON.stringify(v)` (compact form, as used in `_match`). -/
def Val.stringify : Val → String
  | .null => "null"
  | .bool b => if b then "true" else "false"
  | .num n => intToString n
  | .str s => quoteJson s
  | .arr xs => "[" ++ VList.stringifyElems xs ++ "]"
  | .obj fs => "\x7b" ++ VFields.stringifyFields fs ++ "\x7d"
def VList.stringifyElems : VList → String
  | .nil => ""
  | .cons v .nil => Val.stringify v
  | .cons v (.cons w tl) => Val.stringify v ++ "," ++ VList.stringifyElems (.cons w tl)
def VFields.stringifyFields : VFields → String
  | .nil => ""
  | .cons k v .nil => quoteJson k ++ ":" ++ Val.stringify v
  | .cons k v (.cons k2 w tl) =>
    quoteJson k ++ ":" ++ Val.stringify v ++ "," ++ VFields.stringifyFields (.cons k2 w tl)
end

/-- Property read `o[k]`: first binding wins; `none` models `undefined`. -/
def VFields.get? : VFields → String → Option Val
  | .nil, _ => none
  | .cons k v tl, key => if k = key then some v else VFields.get? tl key

/-- Property write `o[k] = v`: replaces the existing binding in place keeping
its position, otherwise appends — the JS object property-order semantics used
by both spread (`{...doc, id, ...}`) and `Object.assign`. -/
def VFields.set : VFields → String → Val → VFields
  | .nil, key, v => .cons key v .nil
  | .cons k w tl, key, v =>
    if k = key then .cons key v tl else .cons k w (VFields.set tl key v)

/-- Property removal, as done by rest-destructuring `const {a, ...rest} = o`. -/
def VFields.removeKey : VFields → String → VFields
  | .nil, _ => .nil
  | .cons k v tl, key =>
    if k = key then VFields.removeKey tl key else .cons k v (VFields.removeKey tl key)

def VFields.removeKeys (fs : VFields) : List String → VFields
  | [] => fs
  | k :: ks => (fs.removeKey k).removeKeys ks

/-- `Object.assign(target, src)`: sets `src`'s properties on `target` in order. -/
def assignFields (target : VFields) : VFields → VFields
  | .nil => target
  | .cons k v tl => assignFields (target.set k v) tl

def VFields.toList : VFields → List (String × Val)
  | .nil => []
  | .cons k v tl => (k, v) :: VFields.toList tl

/-- JS `===` between two possibly-`undefined` values, where at least one side
is a freshly constructed caller value: equal primitives compare `true`,
objects/arrays compare `false` (distinct heap references). -/
def jsEqOO : Option Val → Option Val → Bool
  | none, none => true
  | some .null, some .null => true
  | some (.bool a), some (.bool b) => a == b
  | some (.num a), some (.num b) => a == b
  | some (.str a), some (.str b) => a == b
  | _, _ => false

/-- One key of `Collection._match`: if the query value is a non-array,
non-null object, compare `JSON.stringify(doc[key]) === JSON.stringify(value)`;
otherwise `doc[key] === value`.  (Predicate-function query values are outside
this model; every claim below uses literal queries only.) -/
def matchVal (dv : Option Val) (qv : Val) : Bool :=
  match qv with
  | .obj _ =>
    match dv with
    | some v => Val.stringify v == Val.stringify qv
    | none => false
  | _ => jsEqOO dv (some qv)

/-- `Collection._match(doc, query)` for an object-literal query. -/
def matchDoc (doc : VFields) : VFields → Bool
  | .nil => true
  | .cons k v tl => matchVal (doc.get? k) v && matchDoc doc tl

/-! ## Store state (LitheDB.js, with the in-memory storage backend) -/

/-- Index options object `{unique: bool}` (`options.unique` truthiness). -/
structure IndexOpt where
  unique : Bool
  deriving DecidableEq

/-- Relation config stored by `defineRelation`: `{ref, field}`. -/
structure RelCfg where
  ref : String
  field : String
  deriving DecidableEq

structure Meta where
  serial : Nat
  indices : List (String × List (String × IndexOpt))
  relations : List (String × List (String × RelCfg))
  deriving DecidableEq

/-- One root (`{metadata, data}`): the live snapshot or the sandbox.  A
collection absent from `data` reads as `[]`, matching
`_getCollectionData`'s lazy `root.data[name] = []`. -/
structure RootData where
  metadata : Meta
  data : List (String × List VFields)
  deriving DecidableEq

def getA {α : Type} : List (String × α) → String → Option α
  | [], _ => none
  | (k, v) :: tl, key => if k = key then some v else getA tl key

def setA {α : Type} : List (String × α) → String → α → List (String × α)
  | [], key, v => [(key, v)]
  | (k, w) :: tl, key, v =>
    if k = key then (key, v) :: tl else (k, w) :: setA tl key v

def getColl (r : RootData) (name : String) : List VFields :=
  (getA r.data name).getD []

def setColl (r : RootData) (name : String) (docs : List VFields) : RootData :=
  { r with data := setA r.data name docs }

def getIndices (r : RootData) (name : String) : List (String × IndexOpt) :=
  (getA r.metadata.indices name).getD []

def getRelationsOf (m : Meta) (name : String) : List (String × RelCfg) :=
  (getA m.relations name).getD []

/-- The whole engine state: the LitheDB instance fields plus the contents of
its `MemoryStorage` backend (`backendData` = persisted snapshot, `backendBak`
= the `.bak` copy made by `backup()`). -/
structure DBState where
  data : RootData
  inTransaction : Bool
  transactionData : Option RootData
  backendData : RootData
  backendBak : Option RootData
  deriving DecidableEq

/-- `const root = this.inTransaction ? this.transactionData : this.data`. -/
def activeRoot (s : DBState) : RootData :=
  if s.inTransaction then s.transactionData.getD s.data else s.data

/-- Mutation through the active root (`_getCollectionData` / `_setCollectionData`
/ `_getNextSerial` / `createIndex` / `defineRelation` all write here). -/
def modifyActive (s : DBState) (f : RootData → RootData) : DBState :=
  if s.inTransaction then
    { s with transactionData := some (f (s.transactionData.getD s.data)) }
  else
    { s with data := f s.data }

/-- `_save()`: no-op during a transaction, else `backup()` (memory backend:
`bak := storage.data`) then `write(this.data)`.  Backups are on by default. -/
def saveDB (s : DBState) : DBState :=
  if s.inTransaction then s
  else { s with backendBak := some s.backendData, backendData := s.data }

/-- `load()`: read from the backend (memory backend returns a deep clone of its
current contents; cloning is the identity on pure values). -/
def loadDB (s : DBState) : DBState :=
  { s with data := s.backendData }

/-- `beginTransaction()`: reload, set the flag, deep-copy the snapshot. -/
def beginTransaction (s : DBState) : DBState :=
  let s1 := loadDB s
  { s1 with inTransaction := true, transactionData := some s1.data }

/-- `commit()`: promote the sandbox, clear the transaction state, save. -/
def commitDB (s : DBState) : DBState :=
  if s.inTransaction then
    saveDB { s with data := s.transactionData.getD s.data,
                    inTransaction := false, transactionData := none }
  else s

/-- `rollback()`: clear the transaction state; nothing else happens. -/
def rollbackDB (s : DBState) : DBState :=
  { s with inTransaction := false, transactionData := none }

def createIndex (s : DBState) (collection field : String) (opts : IndexOpt) : DBState :=
  modifyActive s fun r =>
    let row := setA ((getA r.metadata.indices collection).getD []) field opts
    { r with metadata := { r.metadata with indices := setA r.metadata.indices collection row } }

def defineRelation (s : DBState) (collection field : String) (cfg : RelCfg) : DBState :=
  modifyActive s fun r =>
    let row := setA ((getA r.metadata.relations collection).getD []) field cfg
    { r with metadata := { r.metadata with relations := setA r.metadata.relations collection row } }

inductive DBErr : Type where
  | unique (collection field : String) (value : Val)
  | relation (field : String) (value : Val) (refCollection refField : String)
  deriving DecidableEq

/-- `refCollection.find({[cfg.field]: val}).length > 0` evaluated on a given
root (the root `find` reads from is determined by the caller). -/
def relExists (lookupRoot : RootData) (cfg : RelCfg) (v : Val) : Bool :=
  !((getColl lookupRoot cfg.ref).filter
      (fun d => matchDoc d (.cons cfg.field v .nil))).isEmpty

/-- The loop body of `_checkRelations`, parameterized by the root the record
lookup runs against. -/
def checkRelList (lookupRoot : RootData) : List (String × RelCfg) → VFields → Option DBErr
  | [], _ => none
  | (field, cfg) :: tl, doc =>
    match VFields.get? doc field with
    | none => checkRelList lookupRoot tl doc
    | some .null => checkRelList lookupRoot tl doc
    | some v =>
      if relExists lookupRoot cfg v then checkRelList lookupRoot tl doc
      else some (.relation field v cfg.ref cfg.field)

/-- `LitheDB._checkRelations`: the relation *definitions* come from
`this.data.metadata` (the live snapshot), but the record lookup goes through
`refCollection.find`, hence `_getCollectionData`, hence the *active* root. -/
def checkRelations (s : DBState) (collectionName : String) (doc : VFields) : Option DBErr :=
  checkRelList (activeRoot s) (getRelationsOf s.data.metadata collectionName) doc

/-- The unique-index scan at the top of `Collection.insert`. -/
def uniqueScanInsert (r : RootData) (name : String) (doc : VFields) :
    List (String × IndexOpt) → Option DBErr
  | [] => none
  | (field, opts) :: tl =>
    if opts.unique then
      match VFields.get? doc field with
      | some v =>
        if ((getColl r name).find? (fun d => matchDoc d (.cons field v .nil))).isSome
        then some (.unique name field v)
        else uniqueScanInsert r name doc tl
      | none => uniqueScanInsert r name doc tl
    else uniqueScanInsert r name doc tl

def padStart6 (s : String) : String :=
  String.mk (List.replicate (6 - s.data.length) '0' ++ s.data)

/-- The id synthesized by `insert`:
`String(serial).padStart(6, '0') + '_' + collectionName`. -/
def mkId (serial : Nat) (name : String) : String :=
  padStart6 (natToString serial) ++ "_" ++ name

/-- `Collection.insert(doc)` (hook callbacks have no modelled effect). -/
def insert (s : DBState) (name : String) (doc : VFields) (now : String) :
    Except DBErr VFields × DBState :=
  match uniqueScanInsert (activeRoot s) name doc (getIndices (activeRoot s) name) with
  | some e => (.error e, s)
  | none =>
  match checkRelations s name doc with
  | some e => (.error e, s)
  | none =>
    let s1 := modifyActive s fun r =>
      { r with metadata := { r.metadata with serial := r.metadata.serial + 1 } }
    let id := mkId (activeRoot s1).metadata.serial name
    let newDoc :=
      ((doc.set "id" (.str id)).set "created_at" (.str now)).set "updated_at" (.str now)
    let s2 := modifyActive s1 fun r => setColl r name (getColl r name ++ [newDoc])
    (.ok newDoc, saveDB s2)

/-- The per-target unique-index scan inside `Collection.update`'s loop
(`filtered` is the patch with system fields stripped; `doc` the current state
of the targeted record). -/
def uniqueScanUpdate (r : RootData) (name : String) (filtered doc : VFields) :
    List (String × IndexOpt) → Option DBErr
  | [] => none
  | (field, opts) :: tl =>
    if opts.unique then
      match VFields.get? filtered field with
      | some v =>
        if jsEqOO (some v) (doc.get? field) then
          uniqueScanUpdate r name filtered doc tl
        else
          match (getColl r name).find? (fun d => matchDoc d (.cons field v .nil)) with
          | some existing =>
            if jsEqOO (existing.get? "id") (doc.get? "id") then
              uniqueScanUpdate r name filtered doc tl
            else some (.unique name field v)
          | none => uniqueScanUpdate r name filtered doc tl
      | none => uniqueScanUpdate r name filtered doc tl
    else uniqueScanUpdate r name filtered doc tl

/-- The `for (const doc of targets)` loop of `Collection.update`: `targets`
are references into the live array, modelled by their positions (`idxs`);
each iteration validates uniqueness against the *current* data, merges the
patch into the record in place, then runs the relation check — so a failure
part-way leaves the earlier (and the failing) targets already mutated. -/
def updateLoop (name : String) (filtered : VFields) (now : String) :
    DBState → List Nat → Nat → Except DBErr Nat × DBState
  | s, [], count => (.ok count, s)
  | s, i :: rest, count =>
    let doc := (getColl (activeRoot s) name).getD i .nil
    match uniqueScanUpdate (activeRoot s) name filtered doc (getIndices (activeRoot s) name) with
    | some e => (.error e, s)
    | none =>
      let doc' := (assignFields doc filtered).set "updated_at" (.str now)
      let s' := modifyActive s fun r => setColl r name ((getColl r name).set i doc')
      match checkRelations s' name doc' with
      | some e => (.error e, s')
      | none => updateLoop name filtered now s' rest (count + 1)

/-- `Collection.update(query, updateData)`. -/
def update (s : DBState) (name : String) (q patch : VFields) (now : String) :
    Except DBErr Nat × DBState :=
  let filtered := patch.removeKeys ["id", "created_at", "updated_at"]
  let docs := getColl (activeRoot s) name
  let idxs := (List.range docs.length).filter fun i => matchDoc (docs.getD i .nil) q
  match updateLoop name filtered now s idxs 0 with
  | (.ok count, s') => (.ok count, if 0 < count then saveDB s' else s')
  | (.error e, s') => (.error e, s')

/-- `Collection.remove(query)`. -/
def removeDocs (s : DBState) (name : String) (q : VFields) : Nat × DBState :=
  let docs := getColl (activeRoot s) name
  let newData := docs.filter fun d => !matchDoc d q
  let count := docs.length - newData.length
  if 0 < count then (count, saveDB (modifyActive s fun r => setColl r name newData))
  else (count, s)

/-- `Collection.upsert(query, data)`. -/
def upsert (s : DBState) (name : String) (q d : VFields) (now : String) :
    Except DBErr VFields × DBState :=
  match (getColl (activeRoot s) name).find? (fun doc => matchDoc doc q) with
  | some existing =>
    let r := update s name (.cons "id" ((existing.get? "id").getD .null) .nil) d now
    match r.1 with
    | .error e => (.error e, r.2)
    | .ok _ =>
      match (getColl (activeRoot r.2) name).find?
          (fun doc => matchDoc doc (.cons "id" ((existing.get? "id").getD .null) .nil)) with
      | some u => (.ok u, r.2)
      | none => (.ok .nil, r.2)
  | none => insert s name d now

/-- A fresh store over an empty backend (what `load()` initializes when the
backend holds nothing). -/
def emptyRoot : RootData :=
  { metadata := { serial := 0, indices := [], relations := [] }, data := [] }

def initState : DBState :=
  { data := emptyRoot, inTransaction := false, transactionData := none,
    backendData := emptyRoot, backendBak := none }

/-! ## Lifecycle hooks (`Collection.addHook`).  Callbacks are opaque tokens:
the model tracks registration, not callback side effects. -/

/-- The per-collection `this.hooks` object: eight arrays keyed by event. -/
structure Hooks where
  beforeInsert : List Nat
  afterInsert : List Nat
  beforeUpdate : List Nat
  afterUpdate : List Nat
  beforeRemove : List Nat
  afterRemove : List Nat
  beforeUpsert : List Nat
  afterUpsert : List Nat
  deriving DecidableEq

def Hooks.init : Hooks := ⟨[], [], [], [], [], [], [], []⟩

def hookEvents : List String :=
  ["beforeInsert", "afterInsert", "beforeUpdate", "afterUpdate",
   "beforeRemove", "afterRemove", "beforeUpsert", "afterUpsert"]

/-- The own properties of `Object.prototype`, all inherited by the plain
object literal `this.hooks`; every one of them is truthy (functions, or the
object `Object.prototype` for the `__proto__` accessor) and none of them has
a callable `push`. -/
def objectProtoProps : List String :=
  ["constructor", "hasOwnProperty", "isPrototypeOf", "propertyIsEnumerable",
   "toLocaleString", "toString", "valueOf", "__defineGetter__",
   "__defineSetter__", "__lookupGetter__", "__lookupSetter__", "__proto__"]

/-- `addHook(event, callback)`: `if (this.hooks[event]) this.hooks[event].push(callback)`.
For the eight own properties the lookup yields a (truthy) array and the push
appends.  For any other name the lookup falls to the prototype chain: a name
that is an `Object.prototype` member yields a truthy non-array, whose missing
`push` raises a TypeError (modelled `.error ()`); any remaining name yields
`undefined` (falsy) and nothing happens. -/
def addHook (h : Hooks) (event : String) (callback : Nat) : Except Unit Hooks :=
  if event = "beforeInsert" then .ok { h with beforeInsert := h.beforeInsert ++ [callback] }
  else if event = "afterInsert" then .ok { h with afterInsert := h.afterInsert ++ [callback] }
  else if event = "beforeUpdate" then .ok { h with beforeUpdate := h.beforeUpdate ++ [callback] }
  else if event = "afterUpdate" then .ok { h with afterUpdate := h.afterUpdate ++ [callback] }
  else if event = "beforeRemove" then .ok { h with beforeRemove := h.beforeRemove ++ [callback] }
  else if event = "afterRemove" then .ok { h with afterRemove := h.afterRemove ++ [callback] }
  else if event = "beforeUpsert" then .ok { h with beforeUpsert := h.beforeUpsert ++ [callback] }
  else if event = "afterUpsert" then .ok { h with afterUpsert := h.afterUpsert ++ [callback] }
  else if event ∈ objectProtoProps then .error ()
  else .ok h

/-! ## `FileStorage.write` (Storage.js): temp file, rename, bounded retry. -/

inductive FSEffect : Type where
  | tempWrite : FSEffect
  | renameAttempt (i : Nat) (ok : Bool) : FSEffect
  | sleep (ms : Nat) : FSEffect
  deriving DecidableEq

/-- The `for (let i = 0; i < 5; i++)` rename loop, driven by an oracle
`fail i = true` iff the i-th `fs.rename` call throws.  Errors carry the index
of the attempt whose error is propagated. -/
def renameLoop (fail : Nat → Bool) : Nat → Nat → List FSEffect × Except Nat Unit
  | _, 0 => ([], .ok ())
  | i, fuel + 1 =>
    if fail i then
      if i = 4 then ([.renameAttempt i false], .error i)
      else
        let rest := renameLoop fail (i + 1) fuel
        (.renameAttempt i false :: .sleep (100 * (i + 1)) :: rest.1, rest.2)
    else ([.renameAttempt i true], .ok ())

/-- `FileStorage.write`: write the temp file, then run the rename loop. -/
def fileWrite (fail : Nat → Bool) : List FSEffect × Except Nat Unit :=
  let r := renameLoop fail 0 5
  (.tempWrite :: r.1, r.2)

/-- Modelled from the spec: "write to a temporary location, then atomically
rename into place; on rename failure, retry with bounded backoff (reference
policy: 5 attempts, linearly increasing delay) before failing" — spelled out
as the exact effect trace for every failure pattern. -/
def fileWriteSpec (fail : Nat → Bool) : List FSEffect × Except Nat Unit :=
  if fail 0 = false then
    ([.tempWrite, .renameAttempt 0 true], .ok ())
  else if fail 1 = false then
    ([.tempWrite, .renameAttempt 0 false, .sleep 100,
      .renameAttempt 1 true], .ok ())
  else if fail 2 = false then
    ([.tempWrite, .renameAttempt 0 false, .sleep 100,
      .renameAttempt 1 false, .sleep 200, .renameAttempt 2 true], .ok ())
  else if fail 3 = false then
    ([.tempWrite, .renameAttempt 0 false, .sleep 100,
      .renameAttempt 1 false, .sleep 200, .renameAttempt 2 false, .sleep 300,
      .renameAttempt 3 true], .ok ())
  else if fail 4 = false then
    ([.tempWrite, .renameAttempt 0 false, .sleep 100,
      .renameAttempt 1 false, .sleep 200, .renameAttempt 2 false, .sleep 300,
      .renameAttempt 3 false, .sleep 400, .renameAttempt 4 true], .ok ())
  else
    ([.tempWrite, .renameAttempt 0 false, .sleep 100,
      .renameAttempt 1 false, .sleep 200, .renameAttempt 2 false, .sleep 300,
      .renameAttempt 3 false, .sleep 400, .renameAttempt 4 false], .error 4)

/-! ## Record ids: ordering, format, decoding. -/

/-- JS `<` on strings, character-wise by code unit. -/
def charLt (a b : Char) : Bool := a.toNat < b.toNat

def lexLtChars : List Char → List Char → Bool
  | [], [] => false
  | [], _ :: _ => true
  | _ :: _, [] => false
  | a :: as, b :: bs =>
    if charLt a b then true else if charLt b a then false else lexLtChars as bs

def strLexLt (a b : String) : Bool := lexLtChars a.data b.data

def isDigitCh (c : Char) : Bool := 48 ≤ c.toNat && c.toNat ≤ 57

/-- Decoding the collection name out of an id: everything after the first
underscore. -/
def decodeColl (id : String) : String :=
  String.mk ((id.data.dropWhile fun c => c != '_').drop 1)

/-- Well-formedness of an id for a record of collection `nm`: a 6-character
zero-padded decimal serial, an underscore, then the collection name, and the
decoding recovers the collection. -/
def idOkP (id nm : String) : Prop :=
  (∀ c ∈ id.data.take 6, isDigitCh c = true) ∧
  id.data.drop 6 = '_' :: nm.data ∧
  decodeColl id = nm

def idOfDoc (d : VFields) : String :=
  match d.get? "id" with
  | some (.str s) => s
  | _ => ""

/-- Run a sequence of `insert` calls `(collection, payload, now)`, collecting
`(id, collection)` for each successful insert in order. -/
def runInserts : DBState → List (String × VFields × String) → DBState × List (String × String)
  | s, [] => (s, [])
  | s, (name, doc, now) :: rest =>
    match insert s name doc now with
    | (.ok d, s') =>
      let r := runInserts s' rest
      (r.1, (idOfDoc d, name) :: r.2)
    | (.error _, s') => runInserts s' rest

/-- The ids of a run of inserts, annotated with the serial each one was issued
from: each id is `mkId k` for a strictly increasing chain of serials starting
above `n`, all within the zero-padding range. -/
def GoodIds : Nat → List (String × String) → Prop
  | _, [] => True
  | n, (id, nm) :: rest => ∃ k, n < k ∧ k ≤ 999999 ∧ id = mkId k nm ∧ GoodIds k rest

end LitheDB

deriving instance DecidableEq for Except

namespace LitheDB

/-! ## C7: the file-backend write protocol -/

/-- C7: every file-backend write first writes the temporary file and then
renames it into place, retrying a failed rename up to 5 attempts in total with
linearly increasing delay (100ms, 200ms, ...) between attempts, and failing by
propagating the rename error only after the 5th failed attempt — proved as an
exact characterization of `fileWrite` by the spec-shaped trace table. -/
theorem fileWrite_retries_then_fails : ∀ fail : Nat → Bool, fileWrite fail = fileWriteSpec fail := by
  intro fail
  cases h0 : fail 0 <;> cases h1 : fail 1 <;> cases h2 : fail 2 <;>
    cases h3 : fail 3 <;> cases h4 : fail 4 <;>
      simp [fileWrite, fileWriteSpec, renameLoop, h0, h1, h2, h3, h4]

/-! ## C10: unknown hook events -/

/-- C10 (amended): an event name that is neither one of the eight known hook
events nor the name of an inherited `Object.prototype` member makes
`addHook` a silent no-op — nothing is registered, no error is raised, and
the hook registry (hence all subsequent operation behavior) is unchanged. -/
theorem addHook_unknown_event_noop (h : Hooks) (event : String) (callback : Nat)
    (h1 : event ∉ hookEvents) (h2 : event ∉ objectProtoProps) :
    addHook h event callback = .ok h := by
  simp only [hookEvents, List.mem_cons, List.mem_singleton, not_or] at h1
  obtain ⟨n1, n2, n3, n4, n5, n6, n7, n8, -⟩ := h1
  simp [addHook, n1, n2, n3, n4, n5, n6, n7, n8, h2]

theorem addHook_unknown_event_noop_witness :
    ("onInsert" ∉ hookEvents ∧ "onInsert" ∉ objectProtoProps) ∧
      addHook Hooks.init "onInsert" 7 = .ok Hooks.init :=
  ⟨by decide, addHook_unknown_event_noop Hooks.init "onInsert" 7 (by decide) (by decide)⟩

/-- C10 counterexample: `"toString"` is not one of the eight hook events, yet
`addHook(hooks, "toString", cb)` does not behave as a silent no-op: the lookup
`this.hooks["toString"]` finds the inherited (truthy) `Object.prototype.toString`,
and calling `.push` on it raises a TypeError. -/
theorem addHook_toString_raises :
    "toString" ∉ hookEvents ∧ addHook Hooks.init "toString" 0 = .error () := by
  constructor
  · decide
  · decide

/-! ## C3: query matching on object values -/

/-- C3 (amended): matching a query key whose value is a non-array object
compares the JSON serializations of the document's field value and the query
value; a document field that is structurally identical to the query object —
including the order of object keys — always matches. -/
theorem match_obj_query_self (doc : VFields) (key : String) (fs : VFields)
    (hget : doc.get? key = some (.obj fs)) :
    matchDoc doc (.cons key (.obj fs) .nil) = true := by
  simp [matchDoc, matchVal, hget]

theorem match_obj_query_self_witness :
    ((VFields.cons "a" (.obj (.cons "x" (.num 1) .nil)) .nil).get? "a"
        = some (.obj (.cons "x" (.num 1) .nil))) ∧
      matchDoc (.cons "a" (.obj (.cons "x" (.num 1) .nil)) .nil)
        (.cons "a" (.obj (.cons "x" (.num 1) .nil)) .nil) = true :=
  ⟨by decide, match_obj_query_self _ "a" _ (by decide)⟩

def c3Inner1 : VFields := .cons "x" (.num 1) (.cons "y" (.num 2) .nil)
def c3Inner2 : VFields := .cons "y" (.num 2) (.cons "x" (.num 1) .nil)

/-- C3 counterexample: the two objects `\x7bx:1, y:2\x7d` and `\x7by:2, x:1\x7d`
hold the same key-value pairs in different key order, but a document whose
field holds the first does not match a query whose value is the second:
`JSON.stringify` serializes keys in insertion order, so the comparison is
key-order-sensitive, contradicting the claimed order-insensitivity. -/
theorem match_obj_query_key_order_sensitive :
    c3Inner1.toList.Perm c3Inner2.toList ∧
      matchDoc (.cons "a" (.obj c3Inner1) .nil) (.cons "a" (.obj c3Inner2) .nil) = false := by
  constructor
  · decide
  · decide

/-! ## C8: transactions and rollback -/

/-- The mutating store operations available while a transaction is open
(beginning or committing a transaction inside one is excluded, as in the
spec's single-open-transaction model). -/
inductive DBOp : Type where
  | insertOp (name : String) (doc : VFields) (now : String)
  | updateOp (name : String) (q patch : VFields) (now : String)
  | upsertOp (name : String) (q d : VFields) (now : String)
  | removeOp (name : String) (q : VFields)
  | createIndexOp (collection field : String) (opts : IndexOpt)
  | defineRelationOp (collection field : String) (cfg : RelCfg)

def execOp (s : DBState) : DBOp → DBState
  | .insertOp name doc now => (insert s name doc now).2
  | .updateOp name q patch now => (update s name q patch now).2
  | .upsertOp name q d now => (upsert s name q d now).2
  | .removeOp name q => (removeDocs s name q).2
  | .createIndexOp c f o => createIndex s c f o
  | .defineRelationOp c f cfg => defineRelation s c f cfg

def execOps (s : DBState) : List DBOp → DBState
  | [] => s
  | op :: ops => execOps (execOp s op) ops

/-- While a transaction is open, an operation may touch only the sandbox:
the live snapshot, the backend contents, the backup, and the
transaction flag are all preserved. -/
def TxnInv (s s' : DBState) : Prop :=
  s'.data = s.data ∧ s'.backendData = s.backendData ∧
    s'.backendBak = s.backendBak ∧ s'.inTransaction = true

theorem txnInv_refl {s : DBState} (h : s.inTransaction = true) : TxnInv s s :=
  ⟨rfl, rfl, rfl, h⟩

theorem txnInv_trans {s s' s'' : DBState} (h1 : TxnInv s s') (h2 : TxnInv s' s'') :
    TxnInv s s'' :=
  ⟨h2.1.trans h1.1, h2.2.1.trans h1.2.1, h2.2.2.1.trans h1.2.2.1, h2.2.2.2⟩

theorem txnInv_modifyActive {s : DBState} (h : s.inTransaction = true)
    (f : RootData → RootData) : TxnInv s (modifyActive s f) := by
  simp [TxnInv, modifyActive, h]

theorem saveDB_of_txn {s : DBState} (h : s.inTransaction = true) : saveDB s = s := by
  simp [saveDB, h]

theorem txnInv_saveDB {s s' : DBState} (h : TxnInv s s') : TxnInv s (saveDB s') := by
  rw [saveDB_of_txn h.2.2.2]; exact h

theorem txnInv_insert {s : DBState} (h : s.inTransaction = true)
    (name : String) (doc : VFields) (now : String) :
    TxnInv s (insert s name doc now).2 := by
  unfold insert
  cases uniqueScanInsert (activeRoot s) name doc (getIndices (activeRoot s) name) with
  | some e => exact txnInv_refl h
  | none =>
    cases checkRelations s name doc with
    | some e => exact txnInv_refl h
    | none =>
      exact txnInv_saveDB (txnInv_trans (txnInv_modifyActive h _)
        (txnInv_modifyActive (txnInv_modifyActive h _).2.2.2 _))

theorem txnInv_updateLoop (name : String) (filtered : VFields) (now : String) :
    ∀ (idxs : List Nat) (s : DBState) (count : Nat), s.inTransaction = true →
      TxnInv s (updateLoop name filtered now s idxs count).2 := by
  intro idxs
  induction idxs with
  | nil => intro s count h; exact txnInv_refl h
  | cons i rest ih =>
    intro s count h
    unfold updateLoop
    dsimp only
    split
    · exact txnInv_refl h
    · split
      · exact txnInv_modifyActive h _
      · exact txnInv_trans (txnInv_modifyActive h _) (ih _ _ (txnInv_modifyActive h _).2.2.2)

theorem txnInv_update {s : DBState} (h : s.inTransaction = true)
    (name : String) (q patch : VFields) (now : String) :
    TxnInv s (update s name q patch now).2 := by
  unfold update
  dsimp only
  split
  case _ count s' heq =>
    have hl := txnInv_updateLoop name (patch.removeKeys ["id", "created_at", "updated_at"]) now
      ((List.range (getColl (activeRoot s) name).length).filter
        (fun i => matchDoc ((getColl (activeRoot s) name).getD i .nil) q)) s 0 h
    rw [heq] at hl
    dsimp only
    split
    · exact txnInv_saveDB hl
    · exact hl
  case _ e s' heq =>
    have hl := txnInv_updateLoop name (patch.removeKeys ["id", "created_at", "updated_at"]) now
      ((List.range (getColl (activeRoot s) name).length).filter
        (fun i => matchDoc ((getColl (activeRoot s) name).getD i .nil) q)) s 0 h
    rw [heq] at hl
    exact hl

theorem txnInv_removeDocs {s : DBState} (h : s.inTransaction = true)
    (name : String) (q : VFields) : TxnInv s (removeDocs s name q).2 := by
  unfold removeDocs
  dsimp only
  split
  · exact txnInv_saveDB (txnInv_modifyActive h _)
  · exact txnInv_refl h

theorem txnInv_upsert {s : DBState} (h : s.inTransaction = true)
    (name : String) (q d : VFields) (now : String) :
    TxnInv s (upsert s name q d now).2 := by
  unfold upsert
  dsimp only
  split
  case _ existing heq =>
    split
    · exact txnInv_update h name _ d now
    · split
      · exact txnInv_update h name _ d now
      · exact txnInv_update h name _ d now
  case _ heq => exact txnInv_insert h name d now

theorem txnInv_execOp {s : DBState} (h : s.inTransaction = true) (op : DBOp) :
    TxnInv s (execOp s op) := by
  cases op with
  | insertOp name doc now => exact txnInv_insert h name doc now
  | updateOp name q patch now => exact txnInv_update h name q patch now
  | upsertOp name q d now => exact txnInv_upsert h name q d now
  | removeOp name q => exact txnInv_removeDocs h name q
  | createIndexOp c f o => exact txnInv_modifyActive h _
  | defineRelationOp c f cfg => exact txnInv_modifyActive h _

theorem txnInv_execOps {s : DBState} (h : s.inTransaction = true) (ops : List DBOp) :
    TxnInv s (execOps s ops) := by
  induction ops generalizing s with
  | nil => exact txnInv_refl h
  | cons op ops ih =>
    exact txnInv_trans (txnInv_execOp h op) (ih (txnInv_execOp h op).2.2.2)

/-- C8: beginning a transaction, performing any sequence of collection /
metadata operations inside it, and then rolling back, yields a store whose
live snapshot is exactly the snapshot loaded at `beginTransaction` (the
backend contents at that moment), with the sandbox discarded, the
transaction flag cleared, and the backend and its backup never written. -/
theorem rollback_discards_sandbox (s : DBState) (ops : List DBOp) :
    rollbackDB (execOps (beginTransaction s) ops) =
      { data := s.backendData, inTransaction := false, transactionData := none,
        backendData := s.backendData, backendBak := s.backendBak } := by
  have h : (beginTransaction s).inTransaction = true := rfl
  obtain ⟨hd, hb, hk, -⟩ := txnInv_execOps h ops
  show ({ execOps (beginTransaction s) ops with
    inTransaction := false, transactionData := none } : DBState) = _
  rw [DBState.mk.injEq] at *
  exact ⟨hd, rfl, rfl, hb, hk⟩

/-! ## C1: failed validation and the in-memory root -/

theorem modifyActive_backend (s : DBState) (f : RootData → RootData) :
    (modifyActive s f).backendData = s.backendData ∧
      (modifyActive s f).backendBak = s.backendBak := by
  unfold modifyActive
  split <;> exact ⟨rfl, rfl⟩

theorem updateLoop_backend (name : String) (filtered : VFields) (now : String) :
    ∀ (idxs : List Nat) (s : DBState) (count : Nat),
      (updateLoop name filtered now s idxs count).2.backendData = s.backendData ∧
        (updateLoop name filtered now s idxs count).2.backendBak = s.backendBak := by
  intro idxs
  induction idxs with
  | nil => intro s count; exact ⟨rfl, rfl⟩
  | cons i rest ih =>
    intro s count
    unfold updateLoop
    dsimp only
    split
    · exact ⟨rfl, rfl⟩
    · split
      · exact modifyActive_backend s _
      · refine ⟨(ih _ _).1.trans (modifyActive_backend s _).1,
          (ih _ _).2.trans (modifyActive_backend s _).2⟩

/-- C1 (amended): a failed `insert` leaves the whole in-memory store state
exactly as it was (its checks run before any mutation) and a fortiori
persists nothing; a failed `update` never reaches `_save`, so nothing is
persisted to the backend (neither the data file nor the backup) — but the
in-memory root is not restored (see the counterexample for the mutation it
keeps). -/
theorem failed_validation_not_persisted :
    (∀ (s : DBState) (name : String) (doc : VFields) (now : String) (e : DBErr),
        (insert s name doc now).1 = .error e → (insert s name doc now).2 = s) ∧
    (∀ (s : DBState) (name : String) (q patch : VFields) (now : String) (e : DBErr),
        (update s name q patch now).1 = .error e →
          (update s name q patch now).2.backendData = s.backendData ∧
            (update s name q patch now).2.backendBak = s.backendBak) := by
  constructor
  · intro s name doc now e h
    unfold insert at h ⊢
    dsimp only at h ⊢
    revert h
    split
    · intro _; rfl
    · split
      · intro _; rfl
      · intro h; simp at h
  · intro s name q patch now e h
    unfold update at h ⊢
    dsimp only at h ⊢
    revert h
    split
    case _ count s' heq =>
      intro h
      simp at h
    case _ e' s' heq =>
      intro _
      have := updateLoop_backend name (patch.removeKeys ["id", "created_at", "updated_at"]) now
        ((List.range (getColl (activeRoot s) name).length).filter
          (fun i => matchDoc ((getColl (activeRoot s) name).getD i .nil) q)) s 0
      rw [heq] at this
      exact this

def uMeta : Meta :=
  { serial := 1, indices := [("users", [("email", ⟨true⟩)])], relations := [] }

def uRoot : RootData :=
  { metadata := uMeta, data := [("users", [.cons "email" (.str "a@x.com") .nil])] }

def uState : DBState :=
  { data := uRoot, inTransaction := false, transactionData := none,
    backendData := uRoot, backendBak := none }

def uDoc : VFields := .cons "email" (.str "a@x.com") .nil

def c1Meta : Meta :=
  { serial := 1, indices := [], relations := [("posts", [("author", ⟨"users", "id"⟩)])] }

def c1Root : RootData :=
  { metadata := c1Meta, data := [("posts", [.cons "title" (.str "t") .nil]), ("users", [])] }

def c1State : DBState :=
  { data := c1Root, inTransaction := false, transactionData := none,
    backendData := c1Root, backendBak := none }

def c1Patch : VFields := .cons "author" (.str "u1") .nil

theorem failed_validation_not_persisted_witness :
    ((insert uState "users" uDoc "T").1 = .error (.unique "users" "email" (.str "a@x.com")) ∧
      (insert uState "users" uDoc "T").2 = uState) ∧
    ((update c1State "posts" .nil c1Patch "T1").1
        = .error (.relation "author" (.str "u1") "users" "id") ∧
      (update c1State "posts" .nil c1Patch "T1").2.backendData = c1State.backendData ∧
        (update c1State "posts" .nil c1Patch "T1").2.backendBak = c1State.backendBak) :=
  ⟨⟨by decide, failed_validation_not_persisted.1 uState "users" uDoc "T"
      (.unique "users" "email" (.str "a@x.com")) (by decide)⟩,
    ⟨by decide, failed_validation_not_persisted.2 c1State "posts" .nil c1Patch "T1"
      (.relation "author" (.str "u1") "users" "id") (by decide)⟩⟩

/-- C1 counterexample: a one-record `update` batch whose (only) target fails
the relation-integrity check: the call errors before persisting, but the
in-memory root is *not* "exactly as it was before the call" — the record was
merged in place (`Object.assign`) before `_checkRelations` ran, so it keeps
the bad foreign key and the refreshed `updated_at`. -/
theorem update_failure_mutates_root :
    (update c1State "posts" .nil c1Patch "T1").1
        = .error (.relation "author" (.str "u1") "users" "id") ∧
      (update c1State "posts" .nil c1Patch "T1").2.data ≠ c1State.data := by
  constructor
  · decide
  · decide

/-! ## C2: relation checks inside a transaction -/

/-- C2 (amended): while a transaction is open, `_checkRelations` reads the
relation *definitions* from the live committed snapshot but evaluates the
existence lookup against the pending sandbox (`find` goes through
`_getCollectionData`, which returns `transactionData`); consequently a
referenced value whose record exists in the sandbox passes the check. -/
theorem relation_check_reads_sandbox (s : DBState) (coll : String) (doc : VFields)
    (h : s.inTransaction = true) :
    checkRelations s coll doc
        = checkRelList (s.transactionData.getD s.data) (getRelationsOf s.data.metadata coll) doc ∧
    (∀ (field : String) (cfg : RelCfg) (v : Val),
      getRelationsOf s.data.metadata coll = [(field, cfg)] →
      doc.get? field = some v → v ≠ .null →
      relExists (s.transactionData.getD s.data) cfg v = true →
      checkRelations s coll doc = none) := by
  have hmain : checkRelations s coll doc
      = checkRelList (s.transactionData.getD s.data) (getRelationsOf s.data.metadata coll) doc := by
    simp [checkRelations, activeRoot, h]
  refine ⟨hmain, ?_⟩
  intro field cfg v hrel hget hnull hex
  rw [hmain, hrel]
  unfold checkRelList
  rw [hget]
  cases v with
  | null => exact absurd rfl hnull
  | bool b => simp [hex, checkRelList]
  | num n => simp [hex, checkRelList]
  | str t => simp [hex, checkRelList]
  | arr xs => simp [hex, checkRelList]
  | obj fs => simp [hex, checkRelList]

def relMeta : Meta :=
  { serial := 0, indices := [], relations := [("posts", [("author", ⟨"users", "id"⟩)])] }

def relRoot : RootData := { metadata := relMeta, data := [("posts", []), ("users", [])] }

def c2s0 : DBState :=
  { data := relRoot, inTransaction := false, transactionData := none,
    backendData := relRoot, backendBak := none }

/-- The state after `beginTransaction()` followed by inserting one user —
the user record exists only in the sandbox, not in the live snapshot. -/
def c2s2 : DBState := (insert (beginTransaction c2s0) "users" .nil "T").2

def c2Post : VFields := .cons "author" (.str "000001_users") .nil

theorem relation_check_reads_sandbox_witness :
    c2s2.inTransaction = true ∧
    (checkRelations c2s2 "posts" c2Post
        = checkRelList (c2s2.transactionData.getD c2s2.data)
            (getRelationsOf c2s2.data.metadata "posts") c2Post ∧
      (∀ (field : String) (cfg : RelCfg) (v : Val),
        getRelationsOf c2s2.data.metadata "posts" = [(field, cfg)] →
        c2Post.get? field = some v → v ≠ .null →
        relExists (c2s2.transactionData.getD c2s2.data) cfg v = true →
        checkRelations c2s2 "posts" c2Post = none)) :=
  ⟨by decide, relation_check_reads_sandbox c2s2 "posts" c2Post (by decide)⟩

/-- C2 counterexample: with the relation `posts.author -> users.id` defined
in the live snapshot and an open transaction in which one user was inserted,
inserting a post referencing that user's id succeeds — the existence lookup
saw the record inserted earlier in the same open transaction (the live
snapshot's `users` collection is empty), contradicting the claim that such a
record is not seen. -/
theorem relation_check_sees_uncommitted_insert :
    c2s2.inTransaction = true ∧
      getColl c2s2.data "users" = [] ∧
      getRelationsOf c2s2.data.metadata "posts" = [("author", ⟨"users", "id"⟩)] ∧
      checkRelations c2s2 "posts" c2Post = none ∧
      (insert c2s2 "posts" c2Post "T").1
        = .ok (.cons "author" (.str "000001_users") (.cons "id" (.str "000002_posts")
            (.cons "created_at" (.str "T") (.cons "updated_at" (.str "T") .nil)))) := by
  refine ⟨by decide, by decide, by decide, by decide, by decide⟩

/-! ## C5: uniqueness enforcement on insert -/

/-- The conflict condition `insert` tests for one index entry: the index is
unique, the payload carries the field, and some existing record matches on it. -/
def violatesUnique (r : RootData) (name : String) (doc : VFields)
    (e : String × IndexOpt) : Bool :=
  e.2.unique &&
    match doc.get? e.1 with
    | some v => ((getColl r name).find? (fun d => matchDoc d (.cons e.1 v .nil))).isSome
    | none => false

theorem uniqueScanInsert_finds (r : RootData) (name : String) (doc : VFields)
    (field : String) (opt : IndexOpt) (v : Val) :
    ∀ (pre post : List (String × IndexOpt)),
      (∀ e ∈ pre, violatesUnique r name doc e = false) →
      opt.unique = true → doc.get? field = some v →
      ((getColl r name).find? (fun d => matchDoc d (.cons field v .nil))).isSome = true →
      uniqueScanInsert r name doc (pre ++ (field, opt) :: post)
        = some (.unique name field v) := by
  intro pre
  induction pre with
  | nil =>
    intro post _ huniq hget hconf
    unfold uniqueScanInsert
    simp [huniq, hget, hconf]
  | cons e pre ih =>
    intro post hpre huniq hget hconf
    have he : violatesUnique r name doc e = false := hpre e (by simp)
    have hrest : ∀ e' ∈ pre, violatesUnique r name doc e' = false := by
      intro e' he'; exact hpre e' (by simp [he'])
    obtain ⟨f1, o1⟩ := e
    unfold violatesUnique at he
    unfold uniqueScanInsert
    simp only [List.cons_append]
    by_cases hu : o1.unique = true
    · simp only [hu, if_true]
      cases hg : doc.get? f1 with
      | none => exact ih post hrest huniq hget hconf
      | some v1 =>
        simp only [hu, hg, Bool.true_and] at he
        simp only [he, if_false]
        exact ih post hrest huniq hget hconf
    · simp only [Bool.not_eq_true] at hu
      simp only [hu, if_false]
      exact ih post hrest huniq hget hconf

/-- C5: inserting a payload that carries a unique-indexed field whose value is
already matched by an existing record of the collection fails with a
Uniqueness error naming the collection, the field and the value, and leaves
the whole store state unchanged — in particular the count of records matching
that value stays the same.  (The `hpre` hypothesis pins the named index as
the first conflicting one, which is the one the scan reports.) -/
theorem insert_unique_conflict_fails (s : DBState) (name field : String) (doc : VFields)
    (v : Val) (opt : IndexOpt) (pre post : List (String × IndexOpt)) (now : String)
    (hidx : getIndices (activeRoot s) name = pre ++ (field, opt) :: post)
    (hpre : ∀ e ∈ pre, violatesUnique (activeRoot s) name doc e = false)
    (huniq : opt.unique = true)
    (hget : doc.get? field = some v)
    (hconf : ((getColl (activeRoot s) name).find?
        (fun d => matchDoc d (.cons field v .nil))).isSome = true) :
    insert s name doc now = (.error (.unique name field v), s) ∧
      (getColl (activeRoot (insert s name doc now).2) name).countP
          (fun d => matchDoc d (.cons field v .nil))
        = (getColl (activeRoot s) name).countP
            (fun d => matchDoc d (.cons field v .nil)) := by
  have hscan := uniqueScanInsert_finds (activeRoot s) name doc field opt v pre post
    hpre huniq hget hconf
  have hmain : insert s name doc now = (.error (.unique name field v), s) := by
    unfold insert
    rw [hidx, hscan]
  exact ⟨hmain, by rw [hmain]⟩

theorem insert_unique_conflict_fails_witness :
    (getIndices (activeRoot uState) "users" = [] ++ ("email", ⟨true⟩) :: [] ∧
      (∀ e ∈ ([] : List (String × IndexOpt)), violatesUnique (activeRoot uState) "users" uDoc e = false) ∧
      IndexOpt.unique ⟨true⟩ = true ∧
      uDoc.get? "email" = some (.str "a@x.com") ∧
      ((getColl (activeRoot uState) "users").find?
          (fun d => matchDoc d (.cons "email" (.str "a@x.com") .nil))).isSome = true) ∧
    (insert uState "users" uDoc "T" = (.error (.unique "users" "email" (.str "a@x.com")), uState) ∧
      (getColl (activeRoot (insert uState "users" uDoc "T").2) "users").countP
          (fun d => matchDoc d (.cons "email" (.str "a@x.com") .nil))
        = (getColl (activeRoot uState) "users").countP
            (fun d => matchDoc d (.cons "email" (.str "a@x.com") .nil))) :=
  ⟨⟨by decide, by decide, by decide, by decide, by decide⟩,
    insert_unique_conflict_fails uState "users" "email" uDoc (.str "a@x.com") ⟨true⟩ [] [] "T"
      (by decide) (by decide) (by decide) (by decide) (by decide)⟩

/-! ## C6: update ignores system fields in the patch -/

theorem VFields.get?_set_self : ∀ (fs : VFields) (k : String) (v : Val),
    (fs.set k v).get? k = some v
  | .nil, k, v => by simp [VFields.set, VFields.get?]
  | .cons k1 v1 tl, k, v => by
    unfold VFields.set
    by_cases h : k1 = k
    · simp [h, VFields.get?]
    · simp [h, VFields.get?, VFields.get?_set_self tl k v]

theorem VFields.get?_set_ne : ∀ (fs : VFields) (k k' : String) (v : Val), k' ≠ k →
    (fs.set k v).get? k' = fs.get? k'
  | .nil, k, k', v, h => by simp [VFields.set, VFields.get?, Ne.symm h]
  | .cons k1 v1 tl, k, k', v, h => by
    unfold VFields.set
    by_cases h1 : k1 = k
    · subst h1
      simp [VFields.get?, Ne.symm h]
    · simp only [h1, if_false]
      unfold VFields.get?
      by_cases h2 : k1 = k' <;> simp [h2, VFields.get?_set_ne tl k k' v h]

theorem VFields.get?_removeKey_self : ∀ (fs : VFields) (k : String),
    (fs.removeKey k).get? k = none
  | .nil, k => by simp [VFields.removeKey, VFields.get?]
  | .cons k1 v1 tl, k => by
    unfold VFields.removeKey
    by_cases h : k1 = k
    · simp [h, VFields.get?_removeKey_self tl k]
    · simp [h, VFields.get?, VFields.get?_removeKey_self tl k]

theorem VFields.get?_removeKey_ne : ∀ (fs : VFields) (k k' : String), k' ≠ k →
    (fs.removeKey k).get? k' = fs.get? k'
  | .nil, _, _, _ => rfl
  | .cons k1 v1 tl, k, k', h => by
    by_cases h1 : k1 = k
    · subst h1
      have hrk : (VFields.cons k1 v1 tl).removeKey k1 = tl.removeKey k1 := by
        simp [VFields.removeKey]
      have hne : ¬(k1 = k') := fun he => h he.symm
      have hg : (VFields.cons k1 v1 tl).get? k' = tl.get? k' := by
        simp [VFields.get?, hne]
      rw [hrk, hg]
      exact VFields.get?_removeKey_ne tl k1 k' h
    · have hrk : (VFields.cons k1 v1 tl).removeKey k = .cons k1 v1 (tl.removeKey k) := by
        simp [VFields.removeKey, h1]
      rw [hrk]
      by_cases h2 : k1 = k'
      · subst h2
        simp [VFields.get?]
      · have hg1 : (VFields.cons k1 v1 (tl.removeKey k)).get? k' = (tl.removeKey k).get? k' := by
          simp [VFields.get?, h2]
        have hg2 : (VFields.cons k1 v1 tl).get? k' = tl.get? k' := by
          simp [VFields.get?, h2]
        rw [hg1, hg2]
        exact VFields.get?_removeKey_ne tl k k' h

theorem VFields.get?_removeKey_of_none (fs : VFields) (k k' : String)
    (h : fs.get? k = none) : (fs.removeKey k').get? k = none := by
  by_cases hk : k = k'
  · subst hk; exact fs.get?_removeKey_self k
  · rw [VFields.get?_removeKey_ne fs k' k hk]; exact h

theorem VFields.get?_removeKeys_of_none (ks : List String) (fs : VFields) (k : String)
    (h : fs.get? k = none) : (fs.removeKeys ks).get? k = none := by
  induction ks generalizing fs with
  | nil => exact h
  | cons k1 ks ih =>
    exact ih (fs.removeKey k1) (fs.get?_removeKey_of_none k k1 h)

theorem VFields.get?_removeKeys_mem (ks : List String) (fs : VFields) (k : String)
    (h : k ∈ ks) : (fs.removeKeys ks).get? k = none := by
  induction ks generalizing fs with
  | nil => cases h
  | cons k1 ks ih =>
    rcases List.mem_cons.mp h with h1 | h1
    · subst h1
      exact VFields.get?_removeKeys_of_none ks _ k (fs.get?_removeKey_self k)
    · exact ih (fs.removeKey k1) h1

theorem get?_assignFields_of_none : ∀ (p d : VFields) (k : String), p.get? k = none →
    (assignFields d p).get? k = d.get? k
  | .nil, d, k, _ => rfl
  | .cons k1 v1 tl, d, k, h => by
    unfold VFields.get? at h
    by_cases h1 : k1 = k
    · simp [h1] at h
    · simp only [h1, if_false] at h
      unfold assignFields
      rw [get?_assignFields_of_none tl _ k h,
        VFields.get?_set_ne d k1 k v1 (fun he => h1 he.symm)]

theorem getD_set_self {α : Type} (l : List α) (i : Nat) (a d : α) (h : i < l.length) :
    (l.set i a).getD i d = a := by
  simp [List.getD_eq_getElem?_getD, List.getElem?_set_self h]

theorem getD_set_ne {α : Type} (l : List α) {i j : Nat} (a d : α) (h : i ≠ j) :
    (l.set i a).getD j d = l.getD j d := by
  simp [List.getD_eq_getElem?_getD, List.getElem?_set_ne h]

theorem activeRoot_modifyActive (s : DBState) (f : RootData → RootData) :
    activeRoot (modifyActive s f) = f (activeRoot s) := by
  unfold activeRoot modifyActive
  by_cases h : s.inTransaction <;> simp [h]

theorem activeRoot_saveDB (s : DBState) : activeRoot (saveDB s) = activeRoot s := by
  unfold activeRoot saveDB
  by_cases h : s.inTransaction <;> simp [h]

theorem getA_setA_self {α : Type} (l : List (String × α)) (k : String) (v : α) :
    getA (setA l k v) k = some v := by
  induction l with
  | nil => simp [setA, getA]
  | cons e tl ih =>
    obtain ⟨k1, v1⟩ := e
    unfold setA
    by_cases h : k1 = k
    · simp [h, getA]
    · simp [h, getA, ih]

theorem getColl_setColl_self (r : RootData) (name : String) (docs : List VFields) :
    getColl (setColl r name docs) name = docs := by
  simp [getColl, setColl, getA_setA_self]

/-- What a successful `updateLoop` run does to the collection, position by
position: untargeted slots are untouched, each targeted slot holds the
original record merged with the filtered patch and a refreshed `updated_at`. -/
theorem updateLoop_ok_chars (name : String) (filtered : VFields) (now : String) :
    ∀ (idxs : List Nat) (s : DBState) (count k : Nat) (s' : DBState),
      idxs.Pairwise (· ≠ ·) →
      (∀ j ∈ idxs, j < (getColl (activeRoot s) name).length) →
      updateLoop name filtered now s idxs count = (.ok k, s') →
      (getColl (activeRoot s') name).length = (getColl (activeRoot s) name).length ∧
      (∀ j, j ∉ idxs →
        (getColl (activeRoot s') name).getD j .nil
          = (getColl (activeRoot s) name).getD j .nil) ∧
      (∀ j ∈ idxs,
        (getColl (activeRoot s') name).getD j .nil
          = (assignFields ((getColl (activeRoot s) name).getD j .nil) filtered).set
              "updated_at" (.str now)) := by
  intro idxs
  induction idxs with
  | nil =>
    intro s count k s' _ _ heq
    unfold updateLoop at heq
    cases heq
    exact ⟨rfl, fun j _ => rfl, fun j hj => absurd hj (List.not_mem_nil j)⟩
  | cons i rest ih =>
    intro s count k s' hpw hbound heq
    unfold updateLoop at heq
    dsimp only at heq
    split at heq
    · exact absurd heq (by simp)
    · split at heq
      · exact absurd heq (by simp)
      · rw [List.pairwise_cons] at hpw
        have hinotin : i ∉ rest := fun hmem => (hpw.1 i hmem) rfl
        have hilen : i < (getColl (activeRoot s) name).length := hbound i (by simp)
        set docs := getColl (activeRoot s) name with hdocs
        set doc' := (assignFields (docs.getD i .nil) filtered).set "updated_at" (.str now)
          with hdoc'
        have hcoll1 : getColl (activeRoot (modifyActive s
            (fun r => setColl r name ((getColl r name).set i doc')))) name
            = docs.set i doc' := by
          rw [activeRoot_modifyActive, getColl_setColl_self]
        have hbound1 : ∀ j ∈ rest, j < (getColl (activeRoot (modifyActive s
            (fun r => setColl r name ((getColl r name).set i doc')))) name).length := by
          intro j hj
          rw [hcoll1, List.length_set]
          exact hbound j (by simp [hj])
        obtain ⟨hlen, hnotin, hin⟩ := ih _ (count + 1) k s' hpw.2 hbound1 heq
        rw [hcoll1] at hlen hnotin hin
        refine ⟨hlen.trans (List.length_set ..), ?_, ?_⟩
        · intro j hj
          have hj1 : j ∉ rest := fun hm => hj (by simp [hm])
          have hji : i ≠ j := fun he => hj (by simp [he])
          rw [hnotin j hj1, getD_set_ne docs doc' .nil hji]
        · intro j hj
          rcases List.mem_cons.mp hj with hji | hjr
          · subst hji
            rw [hnotin j hinotin, getD_set_self docs j doc' .nil hilen]
          · have hji : i ≠ j := fun he => hinotin (he ▸ hjr)
            rw [hin j hjr, getD_set_ne docs doc' .nil hji]

/-- C6: a successful `update` call leaves every record's `id` and
`created_at` unchanged (any `id`/`created_at`/`updated_at` in the patch is
stripped before merging) and refreshes `updated_at` of every targeted record
to the update's current time — in particular the patch's own `updated_at`
value is never used. -/
theorem update_ignores_system_fields (s : DBState) (name : String) (q patch : VFields)
    (now : String) (k : Nat)
    (hok : (update s name q patch now).1 = .ok k) :
    (getColl (activeRoot (update s name q patch now).2) name).length
        = (getColl (activeRoot s) name).length ∧
    ∀ j, j < (getColl (activeRoot s) name).length →
      ((getColl (activeRoot (update s name q patch now).2) name).getD j .nil).get? "id"
          = ((getColl (activeRoot s) name).getD j .nil).get? "id" ∧
      ((getColl (activeRoot (update s name q patch now).2) name).getD j .nil).get? "created_at"
          = ((getColl (activeRoot s) name).getD j .nil).get? "created_at" ∧
      (matchDoc ((getColl (activeRoot s) name).getD j .nil) q = true →
        ((getColl (activeRoot (update s name q patch now).2) name).getD j .nil).get? "updated_at"
          = some (.str now)) := by
  have update_eq : update s name q patch now =
      match updateLoop name (patch.removeKeys ["id", "created_at", "updated_at"]) now s
        ((List.range (getColl (activeRoot s) name).length).filter
          (fun i => matchDoc ((getColl (activeRoot s) name).getD i .nil) q)) 0 with
      | (.ok count, s') => (.ok count, if 0 < count then saveDB s' else s')
      | (.error e, s') => (.error e, s') := rfl
  rcases hres : updateLoop name (patch.removeKeys ["id", "created_at", "updated_at"]) now s
      ((List.range (getColl (activeRoot s) name).length).filter
        (fun i => matchDoc ((getColl (activeRoot s) name).getD i .nil) q)) 0 with ⟨res, s1⟩
  rw [hres] at update_eq
  cases res with
  | error e =>
    rw [update_eq] at hok
    simp at hok
  | ok count =>
    rw [update_eq] at hok ⊢
    dsimp only at hok ⊢
    have hpw : ((List.range (getColl (activeRoot s) name).length).filter
        (fun i => matchDoc ((getColl (activeRoot s) name).getD i .nil) q)).Pairwise (· ≠ ·) :=
      List.Nodup.filter _ (List.nodup_range _)
    have hbd : ∀ j ∈ (List.range (getColl (activeRoot s) name).length).filter
        (fun i => matchDoc ((getColl (activeRoot s) name).getD i .nil) q),
        j < (getColl (activeRoot s) name).length := by
      intro j hj
      exact List.mem_range.mp (List.mem_of_mem_filter hj)
    obtain ⟨hlen, hnotin, hin⟩ := updateLoop_ok_chars name
      (patch.removeKeys ["id", "created_at", "updated_at"]) now _ s 0 count s1 hpw hbd hres
    have hroot : activeRoot (if 0 < count then saveDB s1 else s1) = activeRoot s1 := by
      by_cases hc : 0 < count <;> simp [hc, activeRoot_saveDB]
    rw [hroot]
    have hidnone : (patch.removeKeys ["id", "created_at", "updated_at"]).get? "id" = none :=
      VFields.get?_removeKeys_mem _ patch "id" (by simp)
    have hcrnone : (patch.removeKeys ["id", "created_at", "updated_at"]).get? "created_at" = none :=
      VFields.get?_removeKeys_mem _ patch "created_at" (by simp)
    refine ⟨hlen, ?_⟩
    intro j hjlen
    by_cases hm : matchDoc ((getColl (activeRoot s) name).getD j .nil) q = true
    · have hjmem : j ∈ (List.range (getColl (activeRoot s) name).length).filter
          (fun i => matchDoc ((getColl (activeRoot s) name).getD i .nil) q) :=
        List.mem_filter.mpr ⟨List.mem_range.mpr hjlen, hm⟩
      rw [hin j hjmem]
      refine ⟨?_, ?_, fun _ => ?_⟩
      · rw [VFields.get?_set_ne _ _ _ _ (by decide)]
        exact get?_assignFields_of_none _ _ "id" hidnone
      · rw [VFields.get?_set_ne _ _ _ _ (by decide)]
        exact get?_assignFields_of_none _ _ "created_at" hcrnone
      · exact VFields.get?_set_self _ _ _
    · have hjnot : j ∉ (List.range (getColl (activeRoot s) name).length).filter
          (fun i => matchDoc ((getColl (activeRoot s) name).getD i .nil) q) := by
        intro hmem
        exact hm (List.mem_filter.mp hmem).2
      rw [hnotin j hjnot]
      exact ⟨rfl, rfl, fun hc => absurd hc hm⟩

def c6Doc : VFields :=
  .cons "name" (.str "n") (.cons "id" (.str "000001_users")
    (.cons "created_at" (.str "T0") (.cons "updated_at" (.str "T0") .nil)))

def c6Meta : Meta := { serial := 1, indices := [], relations := [] }

def c6Root : RootData := { metadata := c6Meta, data := [("users", [c6Doc])] }

def c6State : DBState :=
  { data := c6Root, inTransaction := false, transactionData := none,
    backendData := c6Root, backendBak := none }

/-- A patch that tries to overwrite all three system fields. -/
def c6Patch : VFields :=
  .cons "id" (.str "HACK") (.cons "created_at" (.str "H2")
    (.cons "updated_at" (.str "H3") (.cons "name" (.str "m") .nil)))

theorem update_ignores_system_fields_witness :
    (update c6State "users" .nil c6Patch "T1").1 = .ok 1 ∧
    ((getColl (activeRoot (update c6State "users" .nil c6Patch "T1").2) "users").length
        = (getColl (activeRoot c6State) "users").length ∧
    ∀ j, j < (getColl (activeRoot c6State) "users").length →
      ((getColl (activeRoot (update c6State "users" .nil c6Patch "T1").2) "users").getD j .nil).get? "id"
          = ((getColl (activeRoot c6State) "users").getD j .nil).get? "id" ∧
      ((getColl (activeRoot (update c6State "users" .nil c6Patch "T1").2) "users").getD j .nil).get? "created_at"
          = ((getColl (activeRoot c6State) "users").getD j .nil).get? "created_at" ∧
      (matchDoc ((getColl (activeRoot c6State) "users").getD j .nil) .nil = true →
        ((getColl (activeRoot (update c6State "users" .nil c6Patch "T1").2) "users").getD j .nil).get? "updated_at"
          = some (.str "T1"))) :=
  ⟨by decide, update_ignores_system_fields c6State "users" .nil c6Patch "T1" 1 (by decide)⟩

/-! ## C4: id allocation — decimal digits, zero padding, lexicographic order -/

theorem natDigitsAux_irrel (n : Nat) : ∀ (f1 f2 : Nat), n < f1 → n < f2 →
    natDigitsAux f1 n = natDigitsAux f2 n := by
  induction n using Nat.strong_induction_on with
  | _ n ih =>
    intro f1 f2 h1 h2
    cases f1 with
    | zero => omega
    | succ f1' =>
      cases f2 with
      | zero => omega
      | succ f2' =>
        unfold natDigitsAux
        by_cases hn : n < 10
        · simp [hn]
        · simp only [hn, if_false]
          have hdiv : n / 10 < n := Nat.div_lt_self (by omega) (by omega)
          rw [ih (n / 10) hdiv f1' f2' (by omega) (by omega)]

theorem natDigits_small {n : Nat} (h : n < 10) : natDigits n = [Nat.digitChar n] := by
  unfold natDigits natDigitsAux
  simp [h]

theorem natDigits_step {n : Nat} (h : 10 ≤ n) :
    natDigits n = natDigits (n / 10) ++ [Nat.digitChar (n % 10)] := by
  have h1 : natDigits n = if n < 10 then [Nat.digitChar n]
      else natDigitsAux n (n / 10) ++ [Nat.digitChar (n % 10)] := rfl
  rw [h1]
  simp only [Nat.not_lt.mpr h, if_false]
  have hdiv : n / 10 < n := Nat.div_lt_self (by omega) (by omega)
  rw [natDigitsAux_irrel (n / 10) n (n / 10 + 1) (by omega) (by omega)]
  rfl

theorem natDigits_length_le : ∀ (n k : Nat), n < 10 ^ k → 1 ≤ k →
    (natDigits n).length ≤ k := by
  intro n
  induction n using Nat.strong_induction_on with
  | _ n ih =>
    intro k hk h1
    by_cases hn : n < 10
    · rw [natDigits_small hn]
      simpa using h1
    · push_neg at hn
      have hk2 : 2 ≤ k := by
        by_contra hlt
        have hk1 : k = 1 := by omega
        subst hk1
        simp at hk
        omega
      rw [natDigits_step hn]
      have hdiv : n / 10 < n := Nat.div_lt_self (by omega) (by omega)
      have hdivlt : n / 10 < 10 ^ (k - 1) := by
        rw [Nat.div_lt_iff_lt_mul (by omega)]
        have : 10 ^ (k - 1) * 10 = 10 ^ k := by
          rw [← Nat.pow_succ]
          congr 1
          omega
        omega
      have := ih (n / 10) hdiv (k - 1) hdivlt (by omega)
      simp only [List.length_append, List.length_cons, List.length_nil]
      omega

theorem digitChar_isDigit {d : Nat} (h : d < 10) : isDigitCh (Nat.digitChar d) = true := by
  interval_cases d <;> decide

def digitVal (c : Char) : Nat := c.toNat - 48

theorem digitVal_digitChar {d : Nat} (h : d < 10) : digitVal (Nat.digitChar d) = d := by
  interval_cases d <;> decide

theorem isDigitCh_bounds {c : Char} (h : isDigitCh c = true) :
    48 ≤ c.toNat ∧ c.toNat ≤ 57 := by
  simp only [isDigitCh, Bool.and_eq_true, decide_eq_true_eq] at h
  exact h

theorem natDigits_all_digit : ∀ (n : Nat), ∀ c ∈ natDigits n, isDigitCh c = true := by
  intro n
  induction n using Nat.strong_induction_on with
  | _ n ih =>
    intro c hc
    by_cases hn : n < 10
    · rw [natDigits_small hn] at hc
      simp at hc
      subst hc
      exact digitChar_isDigit hn
    · push_neg at hn
      rw [natDigits_step hn] at hc
      rcases List.mem_append.mp hc with hm | hm
      · exact ih (n / 10) (Nat.div_lt_self (by omega) (by omega)) c hm
      · simp at hm
        subst hm
        exact digitChar_isDigit (Nat.mod_lt n (by omega))

def valBE (l : List Char) : Nat := l.foldl (fun acc c => acc * 10 + digitVal c) 0

theorem foldl_val_acc : ∀ (l : List Char) (acc : Nat),
    l.foldl (fun acc c => acc * 10 + digitVal c) acc = acc * 10 ^ l.length + valBE l := by
  intro l
  induction l with
  | nil => intro acc; simp [valBE]
  | cons c tl ih =>
    intro acc
    show tl.foldl _ (acc * 10 + digitVal c) = acc * 10 ^ (c :: tl).length + valBE (c :: tl)
    rw [ih (acc * 10 + digitVal c)]
    have hv : valBE (c :: tl) = digitVal c * 10 ^ tl.length + valBE tl := by
      show tl.foldl _ (0 * 10 + digitVal c) = _
      rw [ih (0 * 10 + digitVal c)]
      ring
    rw [hv]
    simp [List.length_cons, Nat.pow_succ]
    ring

theorem valBE_append_digit (l : List Char) (c : Char) :
    valBE (l ++ [c]) = valBE l * 10 + digitVal c := by
  unfold valBE
  rw [List.foldl_append]
  rfl

theorem valBE_natDigits : ∀ (n : Nat), valBE (natDigits n) = n := by
  intro n
  induction n using Nat.strong_induction_on with
  | _ n ih =>
    by_cases hn : n < 10
    · rw [natDigits_small hn]
      show 0 * 10 + digitVal (Nat.digitChar n) = n
      rw [digitVal_digitChar hn]
      omega
    · push_neg at hn
      rw [natDigits_step hn, valBE_append_digit,
        ih (n / 10) (Nat.div_lt_self (by omega) (by omega)),
        digitVal_digitChar (Nat.mod_lt n (by omega))]
      omega

theorem valBE_lt (l : List Char) (h : ∀ c ∈ l, isDigitCh c = true) :
    valBE l < 10 ^ l.length := by
  induction l with
  | nil => simp [valBE]
  | cons c tl ih =>
    have hd : digitVal c ≤ 9 := by
      have := isDigitCh_bounds (h c (by simp))
      unfold digitVal
      omega
    have hv : valBE (c :: tl) = digitVal c * 10 ^ tl.length + valBE tl := by
      show tl.foldl _ (0 * 10 + digitVal c) = _
      rw [foldl_val_acc]
      ring
    have htl : valBE tl < 10 ^ tl.length := ih (fun c hc => h c (by simp [hc]))
    have hmul : digitVal c * 10 ^ tl.length ≤ 9 * 10 ^ tl.length :=
      Nat.mul_le_mul_right _ hd
    calc valBE (c :: tl) = digitVal c * 10 ^ tl.length + valBE tl := hv
      _ < digitVal c * 10 ^ tl.length + 10 ^ tl.length := by omega
      _ ≤ 9 * 10 ^ tl.length + 10 ^ tl.length := by omega
      _ = 10 ^ (tl.length + 1) := by rw [Nat.pow_succ]; ring
      _ = 10 ^ (c :: tl).length := by simp

theorem lexLt_digits : ∀ (l1 l2 : List Char), l1.length = l2.length →
    (∀ c ∈ l1, isDigitCh c = true) → (∀ c ∈ l2, isDigitCh c = true) →
    valBE l1 < valBE l2 → lexLtChars l1 l2 = true := by
  intro l1
  induction l1 with
  | nil =>
    intro l2 hlen _ _ hval
    cases l2 with
    | nil => simp [valBE] at hval
    | cons b bs => simp at hlen
  | cons a as ih =>
    intro l2 hlen hd1 hd2 hval
    cases l2 with
    | nil => simp at hlen
    | cons b bs =>
      have hlen' : as.length = bs.length := by simpa using hlen
      have hva : valBE (a :: as) = digitVal a * 10 ^ as.length + valBE as := by
        show as.foldl _ (0 * 10 + digitVal a) = _
        rw [foldl_val_acc]; ring
      have hvb : valBE (b :: bs) = digitVal b * 10 ^ bs.length + valBE bs := by
        show bs.foldl _ (0 * 10 + digitVal b) = _
        rw [foldl_val_acc]; ring
      have hba : 48 ≤ a.toNat ∧ a.toNat ≤ 57 := isDigitCh_bounds (hd1 a (by simp))
      have hbb : 48 ≤ b.toNat ∧ b.toNat ≤ 57 := isDigitCh_bounds (hd2 b (by simp))
      unfold lexLtChars
      by_cases hab : charLt a b = true
      · simp [hab]
      · have hab' : ¬ a.toNat < b.toNat := by
          simpa [charLt] using hab
        by_cases hba' : charLt b a = true
        · exfalso
          have hlt : b.toNat < a.toNat := by simpa [charLt] using hba'
          have hdval : digitVal b < digitVal a := by unfold digitVal; omega
          have hbsbound : valBE bs < 10 ^ bs.length :=
            valBE_lt bs (fun c hc => hd2 c (by simp [hc]))
          rw [hlen'] at hva
          have hchain : valBE (b :: bs) < valBE (a :: as) :=
            calc valBE (b :: bs) = digitVal b * 10 ^ bs.length + valBE bs := hvb
              _ < digitVal b * 10 ^ bs.length + 10 ^ bs.length := by omega
              _ = (digitVal b + 1) * 10 ^ bs.length := by ring
              _ ≤ digitVal a * 10 ^ bs.length := Nat.mul_le_mul_right _ (by omega)
              _ ≤ digitVal a * 10 ^ bs.length + valBE as := by omega
              _ = valBE (a :: as) := hva.symm
          omega
        · simp only [hab, hba', if_false]
          have heq : a.toNat = b.toNat := by
            have : ¬ b.toNat < a.toNat := by simpa [charLt] using hba'
            omega
          have hdeq : digitVal a = digitVal b := by unfold digitVal; omega
          apply ih bs hlen' (fun c hc => hd1 c (by simp [hc]))
            (fun c hc => hd2 c (by simp [hc]))
          rw [hva, hvb, hdeq, hlen'] at hval
          omega

theorem lexLt_append : ∀ (l1 l2 r1 r2 : List Char), l1.length = l2.length →
    lexLtChars l1 l2 = true → lexLtChars (l1 ++ r1) (l2 ++ r2) = true := by
  intro l1
  induction l1 with
  | nil =>
    intro l2 r1 r2 hlen h
    cases l2 with
    | nil => simp [lexLtChars] at h
    | cons b bs => simp at hlen
  | cons a as ih =>
    intro l2 r1 r2 hlen h
    cases l2 with
    | nil => simp at hlen
    | cons b bs =>
      have hlen' : as.length = bs.length := by simpa using hlen
      rw [List.cons_append, List.cons_append]
      unfold lexLtChars at h ⊢
      by_cases hab : charLt a b = true
      · simp [hab]
      · by_cases hba : charLt b a = true
        · simp [hab, hba] at h
        · simp only [hab, hba, if_false] at h ⊢
          exact ih bs r1 r2 hlen' h

/-- The character list of a zero-padded 6-digit serial. -/
def dsix (n : Nat) : List Char :=
  List.replicate (6 - (natDigits n).length) '0' ++ natDigits n

theorem mkId_data (k : Nat) (nm : String) : (mkId k nm).data = dsix k ++ '_' :: nm.data := by
  show (padStart6 (natToString k) ++ "_" ++ nm).data = _
  rw [String.data_append, String.data_append]
  show (List.replicate (6 - (natDigits k).length) '0' ++ natDigits k) ++ ['_'] ++ nm.data = _
  unfold dsix
  simp

theorem natDigits_len_le6 {k : Nat} (h : k ≤ 999999) : (natDigits k).length ≤ 6 := by
  apply natDigits_length_le k 6 _ (by omega)
  have h6 : (10 : Nat) ^ 6 = 1000000 := by norm_num
  omega

theorem dsix_length {k : Nat} (h : k ≤ 999999) : (dsix k).length = 6 := by
  unfold dsix
  have := natDigits_len_le6 h
  simp only [List.length_append, List.length_replicate]
  omega

theorem dsix_all_digit (k : Nat) : ∀ c ∈ dsix k, isDigitCh c = true := by
  intro c hc
  unfold dsix at hc
  rcases List.mem_append.mp hc with hm | hm
  · rw [List.eq_of_mem_replicate hm]
    decide
  · exact natDigits_all_digit k c hm

theorem valBE_dsix (k : Nat) : valBE (dsix k) = k := by
  unfold dsix valBE
  rw [List.foldl_append]
  have hz : ∀ (m : Nat),
      (List.replicate m '0').foldl (fun acc c => acc * 10 + digitVal c) 0 = 0 := by
    intro m
    induction m with
    | zero => rfl
    | succ m ih =>
      rw [List.replicate_succ, List.foldl_cons]
      have h0 : 0 * 10 + digitVal '0' = 0 := by decide
      rw [h0]
      exact ih
  rw [hz]
  exact valBE_natDigits k

theorem mkId_lexLt {a b : Nat} (nm1 nm2 : String) (hab : a < b) (hb : b ≤ 999999) :
    strLexLt (mkId a nm1) (mkId b nm2) = true := by
  unfold strLexLt
  rw [mkId_data, mkId_data]
  have hla : (dsix a).length = 6 := dsix_length (by omega)
  have hlb : (dsix b).length = 6 := dsix_length hb
  apply lexLt_append _ _ _ _ (by rw [hla, hlb])
  apply lexLt_digits _ _ (by rw [hla, hlb]) (dsix_all_digit a) (dsix_all_digit b)
  rw [valBE_dsix, valBE_dsix]
  exact hab

theorem mkId_injective_serial {a b : Nat} {nm1 nm2 : String} (ha : a ≤ 999999)
    (hb : b ≤ 999999) (hne : a ≠ b) : mkId a nm1 ≠ mkId b nm2 := by
  intro he
  have hd := congrArg String.data he
  rw [mkId_data, mkId_data] at hd
  have hlen : (dsix a).length = (dsix b).length := by
    rw [dsix_length ha, dsix_length hb]
  obtain ⟨h1, -⟩ := List.append_inj hd hlen
  exact hne (by rw [← valBE_dsix a, ← valBE_dsix b, h1])

theorem mkId_idOk {k : Nat} (nm : String) (hk : k ≤ 999999) : idOkP (mkId k nm) nm := by
  have hdata := mkId_data k nm
  have hlen := dsix_length hk
  refine ⟨?_, ?_, ?_⟩
  · intro c hc
    rw [hdata, List.take_left' hlen] at hc
    exact dsix_all_digit k c hc
  · rw [hdata, List.drop_left' hlen]
  · unfold decodeColl
    rw [hdata]
    have hall : ∀ c ∈ dsix k, (c != '_') = true := by
      intro c hc
      have hb := isDigitCh_bounds (dsix_all_digit k c hc)
      simp only [bne_iff_ne, ne_eq]
      intro he
      exact absurd (he ▸ hb.2) (by decide)
    rw [List.dropWhile_append_of_pos hall]
    have hstop : List.dropWhile (fun c => c != '_') ('_' :: nm.data) = '_' :: nm.data := by
      rw [List.dropWhile_cons]
      simp
    rw [hstop]
    rfl

/-! ### From insert runs to GoodIds -/

def activeSerial (s : DBState) : Nat := (activeRoot s).metadata.serial

theorem insert_ok_spec (s : DBState) (name : String) (doc : VFields) (now : String)
    (d : VFields) (s' : DBState) (h : insert s name doc now = (.ok d, s')) :
    idOfDoc d = mkId (activeSerial s + 1) name ∧ activeSerial s' = activeSerial s + 1 := by
  unfold insert at h
  dsimp only at h
  split at h
  · exact absurd h (by simp)
  · split at h
    · exact absurd h (by simp)
    · have h1 := congrArg Prod.fst h
      have h2 := congrArg Prod.snd h
      simp only [Except.ok.injEq] at h1
      dsimp only at h2
      constructor
      · rw [← h1]
        unfold idOfDoc
        rw [VFields.get?_set_ne _ _ _ _ (by decide), VFields.get?_set_ne _ _ _ _ (by decide),
          VFields.get?_set_self]
        unfold activeSerial
        rw [activeRoot_modifyActive]
      · rw [← h2]
        unfold activeSerial
        rw [activeRoot_saveDB, activeRoot_modifyActive, activeRoot_modifyActive]
        rfl

theorem insert_err_state (s : DBState) (name : String) (doc : VFields) (now : String)
    (e : DBErr) (s' : DBState) (h : insert s name doc now = (.error e, s')) : s' = s := by
  unfold insert at h
  dsimp only at h
  split at h
  · exact (congrArg Prod.snd h).symm
  · split at h
    · exact (congrArg Prod.snd h).symm
    · exact absurd (congrArg Prod.fst h) (by simp)

theorem runInserts_good : ∀ (calls : List (String × VFields × String)) (s : DBState),
    activeSerial s + ((runInserts s calls).2).length ≤ 999999 →
    GoodIds (activeSerial s) (runInserts s calls).2 := by
  intro calls
  induction calls with
  | nil => intro s _; trivial
  | cons c rest ih =>
    intro s h
    obtain ⟨name, doc, now⟩ := c
    have hrun : runInserts s ((name, doc, now) :: rest)
        = match insert s name doc now with
          | (.ok d, s') => ((runInserts s' rest).1, (idOfDoc d, name) :: (runInserts s' rest).2)
          | (.error _, s') => runInserts s' rest := rfl
    rcases hres : insert s name doc now with ⟨res, s1⟩
    rw [hres] at hrun
    cases res with
    | error e =>
      rw [hrun] at h ⊢
      have hs : s1 = s := insert_err_state s name doc now e s1 hres
      subst hs
      exact ih s1 h
    | ok d =>
      rw [hrun] at h ⊢
      dsimp only at h ⊢
      obtain ⟨hid, hser⟩ := insert_ok_spec s name doc now d s1 hres
      simp only [List.length_cons] at h
      refine ⟨activeSerial s + 1, by omega, by omega, hid, ?_⟩
      rw [← hser]
      exact ih s1 (by omega)

theorem goodIds_all : ∀ (l : List (String × String)) (n : Nat), GoodIds n l →
    ∀ p ∈ l, ∃ k, n < k ∧ k ≤ 999999 ∧ p.1 = mkId k p.2 := by
  intro l
  induction l with
  | nil => intro n _ p hp; cases hp
  | cons q rest ih =>
    intro n hg p hp
    obtain ⟨id, nm⟩ := q
    obtain ⟨k, hk1, hk2, hid, hrest⟩ := hg
    rcases List.mem_cons.mp hp with hp1 | hp1
    · subst hp1; exact ⟨k, hk1, hk2, hid⟩
    · obtain ⟨k', h1, h2, h3⟩ := ih k hrest p hp1
      exact ⟨k', by omega, h2, h3⟩

theorem goodIds_chain : ∀ (l : List (String × String)) (n : Nat), GoodIds n l →
    List.Chain' (fun a b => strLexLt a b = true) (l.map Prod.fst) := by
  intro l
  induction l with
  | nil => intro n _; simp
  | cons q rest ih =>
    intro n hg
    obtain ⟨id, nm⟩ := q
    obtain ⟨k, hk1, hk2, hid, hrest⟩ := hg
    cases rest with
    | nil => simp
    | cons q2 rest2 =>
      obtain ⟨id2, nm2⟩ := q2
      obtain ⟨k2, h21, h22, h2id, h2rest⟩ := hrest
      rw [List.map_cons, List.map_cons, List.chain'_cons]
      constructor
      · rw [hid, h2id]
        exact mkId_lexLt nm nm2 h21 h22
      · have := ih k ⟨k2, h21, h22, h2id, h2rest⟩
        simpa using this

theorem goodIds_pairwise : ∀ (l : List (String × String)) (n : Nat), GoodIds n l →
    (l.map Prod.fst).Pairwise (· ≠ ·) := by
  intro l
  induction l with
  | nil => intro n _; simp
  | cons q rest ih =>
    intro n hg
    obtain ⟨id, nm⟩ := q
    obtain ⟨k, hk1, hk2, hid, hrest⟩ := hg
    rw [List.map_cons, List.pairwise_cons]
    constructor
    · intro b hb he
      obtain ⟨p, hp, hpb⟩ := List.mem_map.mp hb
      obtain ⟨k', h1, h2, h3⟩ := goodIds_all rest k hrest p hp
      rw [← hpb, h3] at he
      rw [hid] at he
      exact mkId_injective_serial hk2 h2 (by omega) he
    · exact ih k hrest

theorem goodIds_format : ∀ (l : List (String × String)) (n : Nat), GoodIds n l →
    ∀ p ∈ l, idOkP p.1 p.2 := by
  intro l n hg p hp
  obtain ⟨k, -, hk2, h3⟩ := goodIds_all l n hg p hp
  rw [h3]
  exact mkId_idOk p.2 hk2

/-- C4 (amended): for every store and every sequence of insert calls whose
successful inserts keep the serial counter within the 6-digit range
(at most 999999), the ids handed out are pairwise distinct across the whole
store, lexicographically increasing in insertion order, of the form
zero-padded-6-digit-serial `_` collection-name, and decoding the collection
name back out of each id yields the collection it was inserted into. -/
theorem insert_ids_unique_sorted (s : DBState) (calls : List (String × VFields × String))
    (h : activeSerial s + ((runInserts s calls).2).length ≤ 999999) :
    List.Chain' (fun a b => strLexLt a b = true) ((runInserts s calls).2.map Prod.fst) ∧
    ((runInserts s calls).2.map Prod.fst).Pairwise (· ≠ ·) ∧
    ∀ p ∈ (runInserts s calls).2, idOkP p.1 p.2 := by
  have hg := runInserts_good calls s h
  exact ⟨goodIds_chain _ _ hg, goodIds_pairwise _ _ hg, goodIds_format _ _ hg⟩

theorem insert_ids_unique_sorted_witness :
    (activeSerial initState
        + ((runInserts initState [("users", .nil, "T"), ("posts", .nil, "T")]).2).length ≤ 999999) ∧
    (List.Chain' (fun a b => strLexLt a b = true)
        ((runInserts initState [("users", .nil, "T"), ("posts", .nil, "T")]).2.map Prod.fst) ∧
      ((runInserts initState [("users", .nil, "T"), ("posts", .nil, "T")]).2.map Prod.fst).Pairwise (· ≠ ·) ∧
      ∀ p ∈ (runInserts initState [("users", .nil, "T"), ("posts", .nil, "T")]).2, idOkP p.1 p.2) :=
  ⟨by decide, insert_ids_unique_sorted initState [("users", .nil, "T"), ("posts", .nil, "T")]
    (by decide)⟩

/-! ### C4 counterexample: the padding range runs out at serial 1000000 -/

/-- A store (like a fresh one) with no index and no relation on collection
`"a"` and no open transaction: every insert into `"a"` succeeds. -/
def Plain (s : DBState) : Prop :=
  s.inTransaction = false ∧ getA s.data.metadata.indices "a" = none ∧
    getA s.data.metadata.relations "a" = none

theorem insert_plain_ok (s : DBState) (h : Plain s) :
    ∃ d s', insert s "a" VFields.nil "T" = (.ok d, s') := by
  obtain ⟨ht, hi, hr⟩ := h
  have hact : activeRoot s = s.data := by simp [activeRoot, ht]
  have hscan : uniqueScanInsert (activeRoot s) "a" VFields.nil
      (getIndices (activeRoot s) "a") = none := by
    have hidx : getIndices (activeRoot s) "a" = [] := by
      rw [hact]; unfold getIndices; rw [hi]; rfl
    rw [hidx]
    rfl
  have hrel : checkRelations s "a" VFields.nil = none := by
    unfold checkRelations getRelationsOf
    rw [hr]
    rfl
  unfold insert
  rw [hscan, hrel]
  exact ⟨_, _, rfl⟩

theorem insert_plain_preserved (s : DBState) (d : VFields) (s' : DBState) (h : Plain s)
    (he : insert s "a" VFields.nil "T" = (.ok d, s')) : Plain s' := by
  obtain ⟨ht, hi, hr⟩ := h
  unfold insert at he
  dsimp only at he
  split at he
  · exact absurd he (by simp)
  · split at he
    · exact absurd he (by simp)
    · have h2 := congrArg Prod.snd he
      dsimp only at h2
      rw [← h2]
      refine ⟨?_, ?_, ?_⟩ <;> simp [saveDB, modifyActive, setColl, ht, hi, hr]

theorem runInserts_plain : ∀ (m : Nat) (s : DBState), Plain s →
    ((runInserts s (List.replicate m ("a", VFields.nil, "T"))).2).map Prod.fst
      = (List.range m).map (fun j => mkId (activeSerial s + j + 1) "a") := by
  intro m
  induction m with
  | zero => intro s _; rfl
  | succ m ih =>
    intro s hp
    obtain ⟨d, s1, hres⟩ := insert_plain_ok s hp
    have hrun : runInserts s (List.replicate (m + 1) ("a", VFields.nil, "T"))
        = ((runInserts s1 (List.replicate m ("a", VFields.nil, "T"))).1,
           (idOfDoc d, "a") :: (runInserts s1 (List.replicate m ("a", VFields.nil, "T"))).2) := by
      rw [List.replicate_succ]
      show (match insert s "a" VFields.nil "T" with
            | (.ok d, s') => ((runInserts s' (List.replicate m ("a", VFields.nil, "T"))).1,
                (idOfDoc d, "a") :: (runInserts s' (List.replicate m ("a", VFields.nil, "T"))).2)
            | (.error _, s') => runInserts s' (List.replicate m ("a", VFields.nil, "T"))) = _
      rw [hres]
    obtain ⟨hid, hser⟩ := insert_ok_spec s "a" VFields.nil "T" d s1 hres
    rw [hrun]
    rw [List.map_cons, hid, ih s1 (insert_plain_preserved s d s1 hp hres), hser]
    rw [List.range_succ_eq_map, List.map_cons, List.map_map]
    refine congrArg₂ List.cons ?_ ?_
    · show mkId (activeSerial s + 1) "a" = mkId (activeSerial s + 0 + 1) "a"
      norm_num
    · apply List.map_congr_left
      intro j hj
      show mkId (activeSerial s + 1 + j + 1) "a" = mkId (activeSerial s + (j + 1) + 1) "a"
      congr 1
      omega

/-- C4 counterexample: run one million inserts into collection `"a"` from a
fresh store.  Insert 999999 gets id `"999999_a"` and insert 1000000 gets id
`"1000000_a"` (`padStart(6,'0')` no longer pads a 7-digit serial), and
`"999999_a" < "1000000_a"` is false in lexicographic order — the ids of the
run are not lexicographically increasing in insertion order (nor all of
6-digit form), contradicting the claim as stated for this sequence. -/
theorem natDigits_tens (d r : Nat) (hr : r < 10) (hd : 1 ≤ d) :
    natDigits (10 * d + r) = natDigits d ++ [Nat.digitChar r] := by
  have h10 : 10 ≤ 10 * d + r := by omega
  rw [natDigits_step h10]
  have hdiv : (10 * d + r) / 10 = d := by
    rw [Nat.mul_add_div (by norm_num), Nat.div_eq_of_lt hr, Nat.add_zero]
  have hmod : (10 * d + r) % 10 = r := by
    rw [Nat.mul_add_mod, Nat.mod_eq_of_lt hr]
  rw [hdiv, hmod]

theorem natDigits_999999 : natDigits 999999 = ['9', '9', '9', '9', '9', '9'] := by
  have e1 : (999999 : Nat) = 10 * 99999 + 9 := by norm_num
  have e2 : (99999 : Nat) = 10 * 9999 + 9 := by norm_num
  have e3 : (9999 : Nat) = 10 * 999 + 9 := by norm_num
  have e4 : (999 : Nat) = 10 * 99 + 9 := by norm_num
  have e5 : (99 : Nat) = 10 * 9 + 9 := by norm_num
  rw [e1, natDigits_tens _ _ (by norm_num) (by norm_num),
    e2, natDigits_tens _ _ (by norm_num) (by norm_num),
    e3, natDigits_tens _ _ (by norm_num) (by norm_num),
    e4, natDigits_tens _ _ (by norm_num) (by norm_num),
    e5, natDigits_tens _ _ (by norm_num) (by norm_num),
    natDigits_small (by norm_num)]
  rfl

theorem natDigits_1000000 : natDigits 1000000 = ['1', '0', '0', '0', '0', '0', '0'] := by
  have e1 : (1000000 : Nat) = 10 * 100000 + 0 := by norm_num
  have e2 : (100000 : Nat) = 10 * 10000 + 0 := by norm_num
  have e3 : (10000 : Nat) = 10 * 1000 + 0 := by norm_num
  have e4 : (1000 : Nat) = 10 * 100 + 0 := by norm_num
  have e5 : (100 : Nat) = 10 * 10 + 0 := by norm_num
  have e6 : (10 : Nat) = 10 * 1 + 0 := by norm_num
  rw [e1, natDigits_tens _ _ (by norm_num) (by norm_num),
    e2, natDigits_tens _ _ (by norm_num) (by norm_num),
    e3, natDigits_tens _ _ (by norm_num) (by norm_num),
    e4, natDigits_tens _ _ (by norm_num) (by norm_num),
    e5, natDigits_tens _ _ (by norm_num) (by norm_num),
    e6, natDigits_tens _ _ (by norm_num) (by norm_num),
    natDigits_small (by norm_num)]
  rfl

theorem mkId_999999_data : (mkId 999999 "a").data = ['9', '9', '9', '9', '9', '9', '_', 'a'] := by
  rw [mkId_data]
  unfold dsix
  rw [natDigits_999999]
  rfl

theorem mkId_1000000_data :
    (mkId 1000000 "a").data = ['1', '0', '0', '0', '0', '0', '0', '_', 'a'] := by
  rw [mkId_data]
  unfold dsix
  rw [natDigits_1000000]
  rfl

theorem range_map_not_chain (n : Nat) (hn : 999999 < n) :
    ¬ List.Chain' (fun a b => strLexLt a b = true)
      ((List.range n).map (fun j => mkId (j + 1) "a")) := by
  intro hch
  rw [List.chain'_iff_get] at hch
  have hlen : ((List.range n).map (fun j => mkId (j + 1) "a")).length = n := by simp
  have hbound : 999998 < ((List.range n).map (fun j => mkId (j + 1) "a")).length - 1 := by
    rw [hlen]
    omega
  have h9 := hch 999998 hbound
  simp only [List.get_eq_getElem, List.getElem_map, List.getElem_range] at h9
  norm_num at h9
  have hfalse : strLexLt (mkId 999999 "a") (mkId 1000000 "a") = false := by
    unfold strLexLt
    rw [mkId_999999_data, mkId_1000000_data]
    decide
  rw [h9] at hfalse
  exact absurd hfalse (by decide)

/-- C4 counterexample: run one million inserts into collection `"a"` from a
fresh store.  Insert 999999 gets id `"999999_a"` and insert 1000000 gets id
`"1000000_a"` (`padStart(6,'0')` no longer pads a 7-digit serial), and
`"999999_a" < "1000000_a"` is false in lexicographic order — the ids of the
run are not lexicographically increasing in insertion order (nor all of
6-digit form), contradicting the claim as stated for this sequence. -/
theorem ids_not_sorted_past_padding :
    ¬ List.Chain' (fun a b => strLexLt a b = true)
      (((runInserts initState (List.replicate 1000000 ("a", VFields.nil, "T"))).2).map
        Prod.fst) := by
  have hp : Plain initState := ⟨rfl, rfl, rfl⟩
  rw [runInserts_plain 1000000 initState hp]
  have hfn : (fun j => mkId (activeSerial initState + j + 1) "a")
      = (fun j => mkId (j + 1) "a") := by
    funext j
    have hser : activeSerial initState = 0 := rfl
    rw [hser]
    congr 1
    omega
  rw [hfn]
  exact range_map_not_chain 1000000 (by norm_num)

end LitheDB
